import Mathlib

/-!
Verification development for the story document model and its multi-format
conversion engine: the data model, the JSON codec, link extraction, the
rename rewriter, passage deletion, the line-format codec, the playable
document runtime, and the format detector, embedded shallowly from the
source and checked against the specification's claims.

Numbers follow the host language's number type and are modelled as
rationals; machine integers play no role in this code base.
-/

/-- A JSON value, as produced by the host JSON library from text.
Objects keep field insertion order, as the host runtime does. -/
inductive JValue where
  | null : JValue
  | bool : Bool → JValue
  | num : ℚ → JValue
  | str : String → JValue
  | arr : List JValue → JValue
  | obj : List (String × JValue) → JValue
  deriving Repr

/-- Truthiness of a JSON value under the host language's coercion rules:
null, false, 0 and the empty string are falsy; arrays and objects are
always truthy. -/
def jtruthy : JValue → Bool
  | .null => false
  | .bool b => b
  | .num q => q != 0
  | .str s => s != ""
  | .arr _ => true
  | .obj _ => true

/-- Truthiness of an optional JSON value; an absent member (undefined)
is falsy. -/
def truthyOpt : Option JValue → Bool
  | none => false
  | some v => jtruthy v

/-- First-match field lookup in an object field list. -/
def jlookup : List (String × JValue) → String → Option JValue
  | [], _ => none
  | (k, v) :: rest, key => if k = key then some v else jlookup rest key

/-- Member access on a JSON value: a field of an object, absent (undefined)
otherwise. -/
def jget : JValue → String → Option JValue
  | .obj fs, key => jlookup fs key
  | _, _ => none

/-- The value-or-default idiom of the source (the logical-or operator):
the value when present and truthy, the default otherwise. -/
def jvOr (v : Option JValue) (d : JValue) : JValue :=
  match v with
  | some x => if jtruthy x then x else d
  | none => d

/-- A passage record: name, content, tag list, canvas position and size. -/
structure Passage where
  name : String
  content : String
  tags : List String
  x : ℚ
  y : ℚ
  width : ℚ
  height : ℚ
  deriving Repr, DecidableEq

/-- The story document model. The passage map is an insertion-ordered
association list with unique keys, mirroring a host object. The tag-color
map is kept as the raw JSON value the parsers store there. -/
structure Story where
  title : String
  startPassage : String
  passages : List (String × Passage)
  ifid : String
  format : String
  formatVersion : String
  zoom : ℚ
  tags : String
  stylesheet : String
  javascript : String
  tagColors : JValue
  deriving Repr

/-- Modelled from the spec: generateIFID draws a random v4 UUID from the
host random source; randomness is outside a shallow embedding, so it is
modelled as a fixed v4-shaped placeholder. Every theorem below that
touches the ifid hypothesizes an already-present ifid, so the placeholder
value is never load-bearing. -/
def genIFID : String := "00000000-0000-4000-8000-000000000000"

/-- Serialization of a passage record to its JSON tree, with the field
order the source's object literals use. -/
def passageToJson (p : Passage) : JValue :=
  .obj [("name", .str p.name), ("content", .str p.content),
        ("tags", .arr (p.tags.map JValue.str)),
        ("x", .num p.x), ("y", .num p.y),
        ("width", .num p.width), ("height", .num p.height)]

/-- Serialization of a story to its JSON tree (the semantic content of the
pretty-printed backup text exportAsJson emits), with the field order the
source's parsers construct stories in. -/
def storyToJson (s : Story) : JValue :=
  .obj [("title", .str s.title),
        ("startPassage", .str s.startPassage),
        ("passages", .obj (s.passages.map fun kv => (kv.1, passageToJson kv.2))),
        ("ifid", .str s.ifid),
        ("format", .str s.format),
        ("formatVersion", .str s.formatVersion),
        ("zoom", .num s.zoom),
        ("tags", .str s.tags),
        ("stylesheet", .str s.stylesheet),
        ("javascript", .str s.javascript),
        ("tagColors", s.tagColors)]

/-- The JSON importer, after the host library has deserialized the input
text to a value: reject unless both the title and the passages members are
present and truthy, otherwise rebuild the story object with the documented
defaults, copying the passages member verbatim. -/
def parseJson (data : JValue) : Option JValue :=
  match jget data "title", jget data "passages" with
  | some t, some ps =>
    if jtruthy t && jtruthy ps then
      some (.obj [("title", t),
                  ("startPassage", jvOr (jget data "startPassage") (.str "Start")),
                  ("passages", ps),
                  ("ifid", jvOr (jget data "ifid") (.str genIFID)),
                  ("format", jvOr (jget data "format") (.str "")),
                  ("formatVersion", jvOr (jget data "formatVersion") (.str "")),
                  ("zoom", jvOr (jget data "zoom") (.num 1)),
                  ("tags", jvOr (jget data "tags") (.str "")),
                  ("stylesheet", jvOr (jget data "stylesheet") (.str "")),
                  ("javascript", jvOr (jget data "javascript") (.str "")),
                  ("tagColors", jvOr (jget data "tagColors") (.obj []))])
    else none
  | _, _ => none

/-- ASCII whitespace, the fragment of the host language's trim set that
matters for this code base. -/
def isWsChar (c : Char) : Bool :=
  c = ' ' || c = '\t' || c = '\n' || c = '\r' || c = '\x0b' || c = '\x0c'

/-- Host-style trim on a character list. -/
def trimChars (s : List Char) : List Char :=
  ((s.dropWhile isWsChar).reverse.dropWhile isWsChar).reverse

/-- Host-style string trim. -/
def jsTrim (s : String) : String := String.mk (trimChars s.data)

/-- Generic association-list lookup keyed by strings (a host object read). -/
def alookup {α : Type} : List (String × α) → String → Option α
  | [], _ => none
  | (k, v) :: rest, key => if k = key then some v else alookup rest key

/-- Leftmost occurrence of a non-empty separator in a string: the part
before it and the part after it. Returns none when the separator does not
occur (the empty separator, unused by this code base, is treated as
never occurring). -/
def splitFirstStr (sep : List Char) : List Char → Option (List Char × List Char)
  | [] => none
  | c :: cs =>
    if sep ≠ [] ∧ sep.isPrefixOf (c :: cs) then some ([], (c :: cs).drop sep.length)
    else
      match splitFirstStr sep cs with
      | some (a, b) => some (c :: a, b)
      | none => none

/-- Whether a string contains a substring (the host includes test). -/
def jsIncludes (s sub : String) : Bool := (splitFirstStr sub.data s.data).isSome

/-- Fuelled worker for the host split function on a non-empty separator. -/
def jsSplitF (sep : List Char) : Nat → List Char → List (List Char)
  | 0, s => [s]
  | fuel + 1, s =>
    match splitFirstStr sep s with
    | none => [s]
    | some (a, b) => a :: jsSplitF sep fuel b

/-- The host split function: fields between occurrences of the separator,
in order, as a non-empty list. -/
def jsSplit (sep s : List Char) : List (List Char) := jsSplitF sep (s.length + 1) s

def arrowSep : List Char := ['-', '>']

def pipeSep : List Char := ['|']

/-- The link-marker regular expression of extractLinks, matched at the
current position: two opening brackets, one or more characters other than
a closing bracket, then two closing brackets. The lazy-free character
class makes the match deterministic: the inner text runs to the first
closing bracket, which must be doubled. Returns the inner text and the
remainder after the match. -/
def markerMatchAt : List Char → Option (List Char × List Char)
  | '[' :: '[' :: t =>
    let inner := t.takeWhile (· != ']')
    match t.dropWhile (· != ']') with
    | ']' :: ']' :: r => if inner.isEmpty then none else some (inner, r)
    | _ => none
  | _ => none

/-- Fuelled global scan for link markers, advancing one character when no
match starts at the current position, as the host global-match does. -/
def extractLinksGoF : Nat → List Char → List (List Char)
  | 0, _ => []
  | _ + 1, [] => []
  | fuel + 1, c :: cs =>
    match markerMatchAt (c :: cs) with
    | some (inner, r) => inner :: extractLinksGoF fuel r
    | none => extractLinksGoF fuel cs

/-- All link-marker inner texts of a content string, in order. -/
def extractLinksGo (cs : List Char) : List (List Char) :=
  extractLinksGoF (cs.length + 1) cs

/-- Per-marker target as the source computes it: when the inner text
contains the arrow token, element one of the arrow-split (the field
between the first and second arrow); otherwise the last element of the
pipe-split (the text after the last pipe, or the whole inner text). -/
def targetOfInner (inner : List Char) : String :=
  if (splitFirstStr arrowSep inner).isSome then
    jsTrim (String.mk ((jsSplit arrowSep inner).getD 1 []))
  else
    jsTrim (String.mk ((jsSplit pipeSep inner).getLastD []))

/-- The link extractor of the source: scan the content for markers and map
each to its target. -/
def extractLinks (content : String) : List String :=
  if content = "" then []
  else (extractLinksGo content.data).map targetOfInner

/-- The text up to the first occurrence of the separator, or the whole
string when the separator does not occur. -/
def upToFirstSep (sep s : List Char) : List Char :=
  match splitFirstStr sep s with
  | some (a, _) => a
  | none => s

/-- Fuelled worker: the text after the last occurrence of the separator,
or the whole string when the separator does not occur. -/
def afterLastSepF (sep : List Char) : Nat → List Char → List Char
  | 0, s => s
  | fuel + 1, s =>
    match splitFirstStr sep s with
    | none => s
    | some (_, b) => afterLastSepF sep fuel b

/-- The text after the last occurrence of the separator, or the whole
string when the separator does not occur. -/
def afterLastSep (sep s : List Char) : List Char := afterLastSepF sep (s.length + 1) s

/-- Per-marker target as the amended specification words it: when the
inner text contains the arrow token, the text between the first arrow and
the next arrow (or the end), trimmed; otherwise the text after the last
pipe (the whole inner text when no pipe occurs), trimmed. -/
def targetOfInnerSpec (inner : List Char) : String :=
  match splitFirstStr arrowSep inner with
  | some (_, rest) => jsTrim (String.mk (upToFirstSep arrowSep rest))
  | none => jsTrim (String.mk (afterLastSep pipeSep inner))

/-- The link extractor as the amended specification describes it. -/
def extractLinksSpec (content : String) : List String :=
  if content = "" then []
  else (extractLinksGo content.data).map targetOfInnerSpec

/-- The characters a passage name must not contain, besides the dot. -/
def invalidNameChars : List Char := ['[', ']', '\x7b', '\x7d', '#', '$', '/']

/-- The reserved words a passage name must not equal. -/
def reservedNames : List String :=
  ["__proto__", "constructor", "prototype", "hasOwnProperty", "toString", "valueOf"]

/-- Passage-name validation: an error message, or none when the name is
valid. Rejects the empty or whitespace-only name, names longer than 200
characters, names containing a dot or any bracket, brace, hash, dollar or
slash character, and the reserved words. -/
def validatePassageName (name : String) : Option String :=
  if name = "" ∨ jsTrim name = "" then some "Passage name cannot be empty"
  else if 200 < name.length then some "Passage name is too long (max 200 characters)"
  else if '.' ∈ name.data then some "Passage name cannot contain dots"
  else if name.data.any (fun c => c ∈ invalidNameChars) then
    some "Passage name contains invalid characters"
  else if name ∈ reservedNames then some "Passage name is reserved"
  else none

/-- The distinct deletion failure outcome. -/
inductive DeleteError where
  | LastPassage
  deriving Repr, DecidableEq

/-- Passage deletion, mirroring the delete handler: refuse when at most
one passage exists; otherwise, when the deleted passage is the start
passage, reassign the start to the first remaining key, remove the key,
and report the reassigned start (when one was computed) to the caller. -/
def deletePassage (s : Story) (name : String) :
    Except DeleteError (Story × Option String) :=
  if s.passages.length ≤ 1 then .error .LastPassage
  else
    let newStart : Option String :=
      if s.startPassage = name then (s.passages.map Prod.fst).find? (· != name)
      else none
    let passages2 := s.passages.filter (fun kv => kv.1 != name)
    .ok ({ s with passages := passages2,
                  startPassage := newStart.getD s.startPassage }, newStart)

/-- Bracket-segment match for the lazy rename patterns, at the current
position: two opening brackets, then a segment running to the first
closing bracket, which must be doubled. The lazy star groups of these
patterns cannot extend past a closing bracket, so a failure here cannot be
repaired by backtracking and the scan advances one character. -/
def lazySegAt : List Char → Option (List Char × List Char)
  | c1 :: c2 :: t =>
    if c1 = '[' ∧ c2 = '[' then
      match t.dropWhile (· != ']') with
      | r1 :: r2 :: r =>
        if r1 = ']' ∧ r2 = ']' then some (t.takeWhile (· != ']'), r) else none
      | _ => none
    else none
  | _ => none

/-- Match of a two-group lazy rename pattern (pipe or arrow separator) at
the current position: the display group is the segment text up to the
first separator occurrence (the lazy group takes the shortest prefix),
the target group is the rest of the segment. Returns the whole segment,
the display, the target and the remainder after the match. -/
def sepMatchAt (sep : List Char) (cs : List Char) :
    Option (List Char × List Char × List Char × List Char) :=
  match lazySegAt cs with
  | some (seg, r) =>
    match splitFirstStr sep seg with
    | some (d, t) => some (seg, d, t, r)
    | none => none
  | none => none

/-- Match of the bare rename pattern at the current position: a segment of
characters other than closing bracket, pipe and greater-than, closed by a
doubled closing bracket. -/
def bareMatchAt : List Char → Option (List Char × List Char)
  | c1 :: c2 :: t =>
    if c1 = '[' ∧ c2 = '[' then
      match t.dropWhile (fun c => c != ']' && c != '|' && c != '>') with
      | r1 :: r2 :: r =>
        if r1 = ']' ∧ r2 = ']' then
          some (t.takeWhile (fun c => c != ']' && c != '|' && c != '>'), r)
        else none
      | _ => none
    else none
  | _ => none

/-- Fuelled global-replace scan for a two-group rename pattern: when the
trimmed target equals the old name, emit the marker with the target
portion replaced by the new name and the display untouched; otherwise emit
the matched text itself; outside matches copy one character and continue. -/
def sepPassF (sep : List Char) (oldN newN : String) : Nat → List Char → List Char
  | 0, s => s
  | _ + 1, [] => []
  | fuel + 1, c :: cs =>
    match sepMatchAt sep (c :: cs) with
    | some (seg, d, t, r) =>
      (if jsTrim (String.mk t) = oldN
       then '[' :: '[' :: (d ++ sep ++ newN.data ++ [']', ']'])
       else '[' :: '[' :: (seg ++ [']', ']'])) ++ sepPassF sep oldN newN fuel r
    | none => c :: sepPassF sep oldN newN fuel cs

/-- Fuelled collection of the trimmed targets of every match of a
two-group rename pattern, in scan order. -/
def sepTargetsF (sep : List Char) : Nat → List Char → List String
  | 0, _ => []
  | _ + 1, [] => []
  | fuel + 1, c :: cs =>
    match sepMatchAt sep (c :: cs) with
    | some (_, _, t, r) => jsTrim (String.mk t) :: sepTargetsF sep fuel r
    | none => sepTargetsF sep fuel cs

/-- Fuelled global-replace scan for the bare rename pattern. -/
def barePassF (oldN newN : String) : Nat → List Char → List Char
  | 0, s => s
  | _ + 1, [] => []
  | fuel + 1, c :: cs =>
    match bareMatchAt (c :: cs) with
    | some (t, r) =>
      (if jsTrim (String.mk t) = oldN
       then '[' :: '[' :: (newN.data ++ [']', ']'])
       else '[' :: '[' :: (t ++ [']', ']'])) ++ barePassF oldN newN fuel r
    | none => c :: barePassF oldN newN fuel cs

/-- Fuelled collection of the trimmed targets of every bare-pattern match,
in scan order. -/
def bareTargetsF : Nat → List Char → List String
  | 0, _ => []
  | _ + 1, [] => []
  | fuel + 1, c :: cs =>
    match bareMatchAt (c :: cs) with
    | some (t, r) => jsTrim (String.mk t) :: bareTargetsF fuel r
    | none => bareTargetsF fuel cs

/-- One two-group rename pass over a content string. -/
def sepPass (sep : List Char) (oldN newN : String) (cs : List Char) : List Char :=
  sepPassF sep oldN newN (cs.length + 1) cs

/-- The trimmed targets of a two-group rename pattern in a content string. -/
def sepTargets (sep : List Char) (cs : List Char) : List String :=
  sepTargetsF sep (cs.length + 1) cs

/-- The bare rename pass over a content string. -/
def barePass (oldN newN : String) (cs : List Char) : List Char :=
  barePassF oldN newN (cs.length + 1) cs

/-- The trimmed targets of the bare rename pattern in a content string. -/
def bareTargets (cs : List Char) : List String :=
  bareTargetsF (cs.length + 1) cs

/-- The link-reference rewrite the rename applies to every other
passage's content: the pipe pass, then the arrow pass, then the bare
pass, in the source's order. -/
def renameRewrite (oldN newN : String) (content : String) : String :=
  String.mk (barePass oldN newN
    (sepPass arrowSep oldN newN
      (sepPass pipeSep oldN newN content.data)))

/-- The distinct rename failure outcomes. -/
inductive RenameError where
  | InvalidName (msg : String)
  | NameCollision
  deriving Repr, DecidableEq

/-- The rename operation, mirroring the editor-close handler's rename path
(taken when the new name differs from the old one): validate the new name,
refuse a colliding key, move the renamed passage to the new key at the end
of the map with its name field updated, rewrite link references in every
other passage with non-empty content, and repoint the start passage if it
was the old name. -/
def renamePassage (s : Story) (oldN newN : String) : Except RenameError Story :=
  match validatePassageName newN with
  | some msg => .error (.InvalidName msg)
  | none =>
    if (alookup s.passages newN).isSome then .error .NameCollision
    else
      match alookup s.passages oldN with
      | none => .ok s
      | some p =>
        let passages2 := s.passages.filter (fun kv => kv.1 != oldN)
          ++ [(newN, { p with name := newN })]
        let passages3 := passages2.map fun kv =>
          if kv.2.name = newN then kv
          else if kv.2.content = "" then kv
          else (kv.1, { kv.2 with content := renameRewrite oldN newN kv.2.content })
        .ok { s with passages := passages3,
                     startPassage := if s.startPassage = oldN then newN
                       else s.startPassage }

/-- Passages of the story exercising the rename frame theorem. -/
def renameDemoPassageA : Passage :=
  { name := "A", content := "hello", tags := [], x := 1, y := 1,
    width := 100, height := 100 }

def renameDemoPassageB : Passage :=
  { name := "B", content := "See [[C]]", tags := [], x := 2, y := 2,
    width := 100, height := 100 }

/-- A concrete story whose only link reference points at a passage other
than the renamed one. -/
def renameDemoStory : Story :=
  { title := "T", startPassage := "A",
    passages := [("A", renameDemoPassageA), ("B", renameDemoPassageB)],
    ifid := "I", format := "", formatVersion := "", zoom := 1, tags := "",
    stylesheet := "", javascript := "", tagColors := JValue.obj [] }

/-- A concrete story in which a marker with two arrow tokens references a
passage whose name itself holds an arrow token. -/
def renameCounterStory : Story :=
  { title := "T", startPassage := "z",
    passages := [("x->c", { name := "x->c", content := "", tags := [],
                            x := 1, y := 1, width := 100, height := 100 }),
                 ("z", { name := "z", content := "[[a->x->c]]", tags := [],
                         x := 2, y := 2, width := 100, height := 100 })],
    ifid := "I", format := "", formatVersion := "", zoom := 1, tags := "",
    stylesheet := "", javascript := "", tagColors := JValue.obj [] }

/-- Replacement of every occurrence of a character by a string. -/
def replaceCharStr (c : Char) (r : List Char) (s : List Char) : List Char :=
  s.flatMap (fun x => if x = c then r else [x])

/-- The explicit entity escaper of the archive generator: the empty-or-
absent guard, then the five sequential global replacements with ampersand
first. -/
def escapeHtml (str : String) : String :=
  if str = "" then ""
  else String.mk (replaceCharStr '\'' ("&#39;".data)
    (replaceCharStr '"' ("&quot;".data)
      (replaceCharStr '>' ("&gt;".data)
        (replaceCharStr '<' ("&lt;".data)
          (replaceCharStr '&' ("&amp;".data) str.data)))))

/-- Modelled from the spec: the esc helper of the source escapes through a
host document element, behavior not present in the source tree; design
note 9 of the spec replaces it with an explicit escaping of the five
characters in order with ampersand first, which is exactly escapeHtml. -/
def esc (s : String) : String := escapeHtml s

/-- All occurrences of a separator in a string, each as the pair of the
text before it and the text after it, in left-to-right order (fuelled). -/
def occSplitsF (sep : List Char) : Nat → List Char → List (List Char × List Char)
  | 0, _ => []
  | fuel + 1, s =>
    match splitFirstStr sep s with
    | none => []
    | some (a, b) =>
      (a, b) :: (occSplitsF sep fuel b).map (fun pr => (a ++ sep ++ pr.1, pr.2))

/-- All occurrences of a separator in a string, in left-to-right order. -/
def occSplits (sep s : List Char) : List (List Char × List Char) :=
  occSplitsF sep (s.length + 1) s

/-- The greedy split of the one-or-more two-group runtime pattern: the
greedy first group prefers the longest display, so occurrences are tried
from the last one backwards, and both groups must be non-empty. -/
def greedySplitNonempty (sep seg : List Char) : Option (List Char × List Char) :=
  (occSplits sep seg).reverse.find? (fun pr => !pr.1.isEmpty && !pr.2.isEmpty)

/-- Match of the playable runtime's arrow pattern at the current position:
bracket segment as in lazySegAt, split greedily at the last arrow
occurrence leaving both groups non-empty. -/
def playArrowMatchAt (cs : List Char) : Option (List Char × List Char × List Char) :=
  match lazySegAt cs with
  | some (seg, r) =>
    match greedySplitNonempty arrowSep seg with
    | some (d, t) => some (d, t, r)
    | none => none
  | none => none

/-- Match of the playable runtime's pipe pattern at the current position:
the display group excludes the pipe, so it is the segment text before the
first pipe; both groups must be non-empty. -/
def playPipeMatchAt (cs : List Char) : Option (List Char × List Char × List Char) :=
  match lazySegAt cs with
  | some (seg, r) =>
    match splitFirstStr pipeSep seg with
    | some (d, t) => if d.isEmpty || t.isEmpty then none else some (d, t, r)
    | none => none
  | none => none

/-- Match of the playable runtime's bare pattern at the current position:
the bare segment must be non-empty. -/
def playBareMatchAt (cs : List Char) : Option (List Char × List Char) :=
  match bareMatchAt cs with
  | some (t, r) => if t.isEmpty then none else some (t, r)
  | none => none

/-- The runtime's single-quote escaping of a link target placed inside the
inline click handler. -/
def jsQuoteEscape (s : List Char) : List Char :=
  s.flatMap (fun c => if c = '\'' then ['\\', '\''] else [c])

/-- The clickable span the playable runtime substitutes for a link marker:
the trimmed, quote-escaped target inside the click handler and the trimmed
display text as the span body, neither entity-escaped. -/
def spanFor (target display : List Char) : List Char :=
  ("<span class=\"link\" onclick=\"showPassage('").data
    ++ jsQuoteEscape (trimChars target)
    ++ ("')\">").data ++ trimChars display ++ ("</span>").data

/-- Fuelled global-replace scan for the runtime's arrow pattern. -/
def playArrowPassF : Nat → List Char → List Char
  | 0, s => s
  | _ + 1, [] => []
  | fuel + 1, c :: cs =>
    match playArrowMatchAt (c :: cs) with
    | some (d, t, r) => spanFor t d ++ playArrowPassF fuel r
    | none => c :: playArrowPassF fuel cs

/-- Fuelled global-replace scan for the runtime's pipe pattern. -/
def playPipePassF : Nat → List Char → List Char
  | 0, s => s
  | _ + 1, [] => []
  | fuel + 1, c :: cs =>
    match playPipeMatchAt (c :: cs) with
    | some (d, t, r) => spanFor t d ++ playPipePassF fuel r
    | none => c :: playPipePassF fuel cs

/-- Fuelled global-replace scan for the runtime's bare pattern; the target
doubles as the display text. -/
def playBarePassF : Nat → List Char → List Char
  | 0, s => s
  | _ + 1, [] => []
  | fuel + 1, c :: cs =>
    match playBareMatchAt (c :: cs) with
    | some (t, r) => spanFor t t ++ playBarePassF fuel r
    | none => c :: playBarePassF fuel cs

def playArrowPass (cs : List Char) : List Char := playArrowPassF (cs.length + 1) cs

def playPipePass (cs : List Char) : List Char := playPipePassF (cs.length + 1) cs

def playBarePass (cs : List Char) : List Char := playBarePassF (cs.length + 1) cs

/-- The runtime's newline-to-break replacement inside a paragraph. -/
def brReplace (s : List Char) : List Char :=
  s.flatMap (fun c => if c = '\n' then ("<br>").data else [c])

/-- The runtime's paragraph wrapping: split on blank lines, wrap each
piece in a paragraph element with single newlines turned into breaks, and
concatenate. -/
def paragraphsWrap (s : List Char) : List Char :=
  ((jsSplit ['\n', '\n'] s).map
    (fun p => ("<p>").data ++ brReplace p ++ ("</p>").data)).flatten

/-- The playable runtime's content pipeline: the arrow pass, the pipe
pass, the bare pass, then paragraph wrapping — applied to the raw passage
content with no entity-escaping. -/
def playableRender (content : String) : String :=
  String.mk (paragraphsWrap (playBarePass (playPipePass (playArrowPass content.data))))

/-- The playable runtime's passage display: the not-found message for a
missing passage, otherwise a heading with the escaped story title followed
by the rendered content. -/
def showPassageHtml (s : Story) (name : String) : String :=
  match alookup s.passages name with
  | none => "<p>Passage not found: " ++ name ++ "</p>"
  | some p => "<h1>" ++ esc s.title ++ "</h1>" ++ playableRender p.content

/-- A one-passage story whose content is markup, exercising the playable
runtime. -/
def playableDemoStory : Story :=
  { title := "T", startPassage := "Start",
    passages := [("Start", { name := "Start", content := "<b>Pwn</b>",
                             tags := [], x := 1, y := 1,
                             width := 100, height := 100 })],
    ifid := "I", format := "", formatVersion := "", zoom := 1, tags := "",
    stylesheet := "", javascript := "", tagColors := JValue.obj [] }

/-- The host language's rounding (round half toward positive infinity),
computed on the raw numerator and denominator so that it evaluates by
kernel reduction: the floor of q plus one half equals the floor division
of twice the numerator plus the denominator by twice the denominator. -/
def jsRound (q : ℚ) : ℤ := Int.fdiv (2 * q.num + (q.den : ℤ)) (2 * (q.den : ℤ))

/-- The numeric value-or-default idiom of the source: the default when the
value is zero (falsy), the value otherwise. -/
def numOr (q d : ℚ) : ℚ := if q = 0 then d else q

/-- The string value-or-default idiom of the source. -/
def strOr (s d : String) : String := if s = "" then d else s

/-- Decimal digits of a natural number (fuel bounds the digit count). -/
def natDigitsStr : Nat → Nat → List Char
  | 0, _ => []
  | fuel + 1, n =>
    if n < 10 then [Char.ofNat (48 + n)]
    else natDigitsStr fuel (n / 10) ++ [Char.ofNat (48 + n % 10)]

/-- Decimal representation of a natural number. -/
def natToStr (n : Nat) : List Char := natDigitsStr (n + 1) n

/-- Decimal representation of an integer, as the host prints it. -/
def intToStr (i : ℤ) : List Char :=
  if i < 0 then '-' :: natToStr i.natAbs else natToStr i.natAbs

/-- Fractional decimal digits of num over den (num less than den),
stopping at a zero remainder; exact for terminating expansions, which
covers every value the host number type can hold. -/
def qFracStr : Nat → Nat → Nat → List Char
  | 0, _, _ => []
  | fuel + 1, num, den =>
    if num = 0 then []
    else Char.ofNat (48 + num * 10 / den) :: qFracStr fuel (num * 10 % den) den

/-- The host's number-to-text conversion restricted to the values this
code base produces: integers print with no point, and other values print
sign, integer part, point and the terminating fractional expansion. -/
def qToStr (q : ℚ) : String :=
  if q.den = 1 then String.mk (intToStr q.num)
  else
    String.mk ((if q.num < 0 then ['-'] else [])
      ++ natToStr (q.num.natAbs / q.den)
      ++ '.' :: qFracStr 30 (q.num.natAbs % q.den) q.den)

def hexDigitChar (n : Nat) : Char :=
  if n < 10 then Char.ofNat (48 + n) else Char.ofNat (87 + n)

/-- The host JSON serializer's escaping of one string character. -/
def jsonEscapeChar (c : Char) : List Char :=
  if c = '"' then ['\\', '"']
  else if c = '\\' then ['\\', '\\']
  else if c = '\x08' then ['\\', 'b']
  else if c = '\t' then ['\\', 't']
  else if c = '\n' then ['\\', 'n']
  else if c = '\x0c' then ['\\', 'f']
  else if c = '\r' then ['\\', 'r']
  else if c.toNat < 32 then
    ['\\', 'u', '0', '0', hexDigitChar (c.toNat / 16), hexDigitChar (c.toNat % 16)]
  else [c]

/-- A JSON string literal: quoted and escaped. -/
def jsonQuote (s : String) : List Char :=
  '"' :: (s.data.flatMap jsonEscapeChar) ++ ['"']

def spacesChars (n : Nat) : List Char := List.replicate n ' '

/-- Concatenation with a separator between elements. -/
def joinSep (sep : List Char) : List (List Char) → List Char
  | [] => []
  | [x] => x
  | x :: xs => x ++ sep ++ joinSep sep xs

mutual
/-- The host JSON serializer with two-space indentation; ind is the
indentation of the line on which the value starts. -/
def jstr2V (ind : Nat) : JValue → List Char
  | .null => ("null").data
  | .bool b => if b then ("true").data else ("false").data
  | .num q => (qToStr q).data
  | .str s => jsonQuote s
  | .arr [] => ("[]").data
  | .arr (x :: xs) =>
    '[' :: '\n' ::
      joinSep ((",\n").data) (jstr2Items (ind + 2) (x :: xs))
      ++ '\n' :: spacesChars ind ++ [']']
  | .obj [] => ("\x7b\x7d").data
  | .obj (kv :: fs) =>
    '\x7b' :: '\n' ::
      joinSep ((",\n").data) (jstr2Flds (ind + 2) (kv :: fs))
      ++ '\n' :: spacesChars ind ++ ['\x7d']

/-- The serialized, indented array items. -/
def jstr2Items (ind : Nat) : List JValue → List (List Char)
  | [] => []
  | x :: xs => (spacesChars ind ++ jstr2V ind x) :: jstr2Items ind xs

/-- The serialized, indented object members. -/
def jstr2Flds (ind : Nat) : List (String × JValue) → List (List Char)
  | [] => []
  | (k, v) :: fs =>
    (spacesChars ind ++ jsonQuote k ++ (": ").data ++ jstr2V ind v)
      :: jstr2Flds ind fs
end

/-- The host JSON serializer at two-space indentation. -/
def jstringify2 (v : JValue) : String := String.mk (jstr2V 0 v)

/-- The member count the host key enumeration reports for the values this
code base stores as tag colors (objects; other values report zero here,
and the claims never reach them). -/
def jobjSize : JValue → Nat
  | .obj fs => fs.length
  | _ => 0

/-- The StoryData metadata object of the line-format generator, with the
documented defaults and the tag-color map included only when the value is
truthy and non-empty. -/
def tweeStoryDataJson (story : Story) (ifid2 : String) : JValue :=
  .obj ([("ifid", .str ifid2),
         ("format", .str (strOr story.format "Harlowe")),
         ("format-version", .str (strOr story.formatVersion "3.3.9")),
         ("start", .str (strOr story.startPassage "Start")),
         ("zoom", .num (numOr story.zoom 1))]
    ++ (if jtruthy story.tagColors ∧ 0 < jobjSize story.tagColors
        then [("tag-colors", story.tagColors)] else []))

/-- One passage block of the line-format generator: header with the
space-joined bracketed tag list (omitted entirely when there are no
tags) and the metadata object holding the rounded position and the raw
size, then the content and a blank line. -/
def tweePassageBlock (p : Passage) : String :=
  let tags := if p.tags ≠ [] then " [" ++ String.intercalate " " p.tags ++ "]" else ""
  let position := "\x7b\"position\":\""
    ++ String.mk (intToStr (jsRound (numOr p.x 100))) ++ ","
    ++ String.mk (intToStr (jsRound (numOr p.y 100))) ++ "\",\"size\":\""
    ++ qToStr (numOr p.width 100) ++ "," ++ qToStr (numOr p.height 100) ++ "\"\x7d"
  ":: " ++ p.name ++ tags ++ " " ++ position ++ "\n" ++ p.content ++ "\n\n"

/-- One passage block as the specification words it: the same block with
the size values also embedded as rounded integers. -/
def tweePassageBlockSpec (p : Passage) : String :=
  let tags := if p.tags ≠ [] then " [" ++ String.intercalate " " p.tags ++ "]" else ""
  let position := "\x7b\"position\":\""
    ++ String.mk (intToStr (jsRound (numOr p.x 100))) ++ ","
    ++ String.mk (intToStr (jsRound (numOr p.y 100))) ++ "\",\"size\":\""
    ++ String.mk (intToStr (jsRound (numOr p.width 100))) ++ ","
    ++ String.mk (intToStr (jsRound (numOr p.height 100))) ++ "\"\x7d"
  ":: " ++ p.name ++ tags ++ " " ++ position ++ "\n" ++ p.content ++ "\n\n"

/-- The non-passage sections of the line-format generator's output: the
StoryTitle block, the StoryData block with its pretty-printed metadata,
and the stylesheet and script blocks when non-empty. -/
def tweePreamble (story : Story) (ifid2 : String) : String :=
  ":: StoryTitle\n" ++ story.title ++ "\n\n"
    ++ ":: StoryData\n" ++ jstringify2 (tweeStoryDataJson story ifid2) ++ "\n\n"
    ++ (if story.stylesheet ≠ ""
        then ":: UserStylesheet [stylesheet]\n" ++ story.stylesheet ++ "\n\n" else "")
    ++ (if story.javascript ≠ ""
        then ":: UserScript [script]\n" ++ story.javascript ++ "\n\n" else "")

/-- The line-format generator: preamble, then one block per passage in
insertion order, trimmed. -/
def generateTwee (story : Story) : String :=
  jsTrim (tweePreamble story (strOr story.ifid genIFID)
    ++ String.join (story.passages.map (fun kv => tweePassageBlock kv.2)))

/-- The line-format generator as the specification words it, differing
only in that the size values are rounded integers. -/
def generateTweeSpec (story : Story) : String :=
  jsTrim (tweePreamble story (strOr story.ifid genIFID)
    ++ String.join (story.passages.map (fun kv => tweePassageBlockSpec kv.2)))

/-- The whitespace characters the host JSON text parser skips. -/
def jsonWsChar (c : Char) : Bool :=
  c = ' ' || c = '\t' || c = '\n' || c = '\r'

def hexVal (c : Char) : Option Nat :=
  if 48 ≤ c.toNat ∧ c.toNat ≤ 57 then some (c.toNat - 48)
  else if 97 ≤ c.toNat ∧ c.toNat ≤ 102 then some (c.toNat - 87)
  else if 65 ≤ c.toNat ∧ c.toNat ≤ 70 then some (c.toNat - 55)
  else none

def isDigitChar (c : Char) : Bool := 48 ≤ c.toNat && c.toNat ≤ 57

def digitsVal (ds : List Char) : Nat :=
  ds.foldl (fun a c => a * 10 + (c.toNat - 48)) 0

/-- Host object member assignment: replace in place when the key exists,
append otherwise. -/
def jsObjSet {α : Type} : List (String × α) → String → α → List (String × α)
  | [], k, v => [(k, v)]
  | (k2, v2) :: rest, k, v =>
    if k2 = k then (k, v) :: rest else (k2, v2) :: jsObjSet rest k v

/-- The body of a JSON string literal after the opening quote: plain
characters and the standard escapes, up to the closing quote. -/
def jparseStrF : Nat → List Char → List Char → Option (String × List Char)
  | 0, _, _ => none
  | fuel + 1, acc, s =>
    match s with
    | [] => none
    | c :: rest =>
      if c = '"' then some (String.mk acc.reverse, rest)
      else if c = '\\' then
        match rest with
        | [] => none
        | e :: rest2 =>
          if e = '"' then jparseStrF fuel ('"' :: acc) rest2
          else if e = '\\' then jparseStrF fuel ('\\' :: acc) rest2
          else if e = '/' then jparseStrF fuel ('/' :: acc) rest2
          else if e = 'b' then jparseStrF fuel ('\x08' :: acc) rest2
          else if e = 'f' then jparseStrF fuel ('\x0c' :: acc) rest2
          else if e = 'n' then jparseStrF fuel ('\n' :: acc) rest2
          else if e = 'r' then jparseStrF fuel ('\r' :: acc) rest2
          else if e = 't' then jparseStrF fuel ('\t' :: acc) rest2
          else if e = 'u' then
            match rest2 with
            | h1 :: h2 :: h3 :: h4 :: rest3 =>
              match hexVal h1, hexVal h2, hexVal h3, hexVal h4 with
              | some a, some b, some c2, some d =>
                jparseStrF fuel
                  (Char.ofNat (((a * 16 + b) * 16 + c2) * 16 + d) :: acc) rest3
              | _, _, _, _ => none
            | _ => none
          else none
      else if c.toNat < 32 then none
      else jparseStrF fuel (c :: acc) rest

/-- A JSON number: optional sign, integer part without leading zeros,
optional fraction and exponent. The value is assembled from integer
arithmetic; a negative ten-power denominator goes through the rational
constructor. -/
def jparseNumber (s : List Char) : Option (JValue × List Char) :=
  let (neg, s1) :=
    match s with
    | '-' :: rest => (true, rest)
    | _ => (false, s)
  let intDs := s1.takeWhile isDigitChar
  let afterInt := s1.dropWhile isDigitChar
  if intDs = [] then none
  else if 2 ≤ intDs.length ∧ intDs.headD '0' = '0' then none
  else
    let (fracDs, afterFrac) :=
      match afterInt with
      | '.' :: r2 => (r2.takeWhile isDigitChar, r2.dropWhile isDigitChar)
      | _ => ([], afterInt)
    if afterInt ≠ [] ∧ afterInt.headD ' ' = '.' ∧ fracDs = [] then none
    else
      let expPart : Option (Bool × List Char × List Char) :=
        match afterFrac with
        | e :: r3 =>
          if e = 'e' ∨ e = 'E' then
            match r3 with
            | '-' :: r4 => some (true, r4.takeWhile isDigitChar, r4.dropWhile isDigitChar)
            | '+' :: r4 => some (false, r4.takeWhile isDigitChar, r4.dropWhile isDigitChar)
            | _ => some (false, r3.takeWhile isDigitChar, r3.dropWhile isDigitChar)
          else none
        | [] => none
      match expPart with
      | some (_, expDs, _) =>
        if expDs = [] then none
        else
          let (expNeg, _, afterExp) := expPart.getD (false, [], [])
          let mant : ℤ := (digitsVal intDs * 10 ^ fracDs.length + digitsVal fracDs : ℕ)
          let mant : ℤ := if neg then -mant else mant
          let e10 : ℤ := (if expNeg then -(digitsVal expDs : ℤ) else (digitsVal expDs : ℤ))
            - (fracDs.length : ℤ)
          let v : ℚ :=
            if 0 ≤ e10 then ((mant * 10 ^ e10.toNat : ℤ) : ℚ)
            else mkRat mant (10 ^ (-e10).toNat)
          some (.num v, afterExp)
      | none =>
        let mant : ℤ := (digitsVal intDs * 10 ^ fracDs.length + digitsVal fracDs : ℕ)
        let mant : ℤ := if neg then -mant else mant
        let v : ℚ :=
          if fracDs = [] then (mant : ℚ)
          else mkRat mant (10 ^ fracDs.length)
        some (.num v, afterFrac)

mutual
/-- The host JSON text parser: one value and the remaining input. -/
def jparseValF : Nat → List Char → Option (JValue × List Char)
  | 0, _ => none
  | fuel + 1, s =>
    let s1 := s.dropWhile jsonWsChar
    match s1 with
    | [] => none
    | c :: rest =>
      if c = '"' then
        (jparseStrF (rest.length + 1) [] rest).map (fun pr => (.str pr.1, pr.2))
      else if c = '\x7b' then
        let s2 := rest.dropWhile jsonWsChar
        match s2 with
        | d :: rest2 => if d = '\x7d' then some (.obj [], rest2)
                        else jparseMembersF fuel s2 []
        | [] => none
      else if c = '[' then
        let s2 := rest.dropWhile jsonWsChar
        match s2 with
        | d :: rest2 => if d = ']' then some (.arr [], rest2)
                        else jparseItemsF fuel s2 []
        | [] => none
      else if c = 't' then
        if ("rue").data.isPrefixOf rest then some (.bool true, rest.drop 3) else none
      else if c = 'f' then
        if ("alse").data.isPrefixOf rest then some (.bool false, rest.drop 4) else none
      else if c = 'n' then
        if ("ull").data.isPrefixOf rest then some (.null, rest.drop 3) else none
      else jparseNumber s1

/-- Object members from the first key onward, accumulating with host
assignment semantics; ends at the closing brace. -/
def jparseMembersF : Nat → List Char → List (String × JValue) →
    Option (JValue × List Char)
  | 0, _, _ => none
  | fuel + 1, s, acc =>
    let s1 := s.dropWhile jsonWsChar
    match s1 with
    | c :: rest =>
      if c = '"' then
        match jparseStrF (rest.length + 1) [] rest with
        | some (key, afterKey) =>
          match (afterKey.dropWhile jsonWsChar) with
          | d :: afterColon =>
            if d = ':' then
              match jparseValF fuel afterColon with
              | some (v, afterVal) =>
                let acc2 := jsObjSet acc key v
                match (afterVal.dropWhile jsonWsChar) with
                | e :: rest3 =>
                  if e = ',' then jparseMembersF fuel rest3 acc2
                  else if e = '\x7d' then some (.obj acc2, rest3)
                  else none
                | [] => none
              | none => none
            else none
          | [] => none
        | none => none
      else none
    | [] => none

/-- Array items from the first item onward; ends at the closing bracket. -/
def jparseItemsF : Nat → List Char → List JValue → Option (JValue × List Char)
  | 0, _, _ => none
  | fuel + 1, s, acc =>
    match jparseValF fuel s with
    | some (v, afterVal) =>
      match (afterVal.dropWhile jsonWsChar) with
      | e :: rest =>
        if e = ',' then jparseItemsF fuel rest (acc ++ [v])
        else if e = ']' then some (.arr (acc ++ [v]), rest)
        else none
      | [] => none
    | none => none
end

/-- The host JSON text parser: a value covering the whole input up to
trailing whitespace, or no result. -/
def jparse (text : String) : Option JValue :=
  match jparseValF (text.data.length + 1) text.data with
  | some (v, rest) => if rest.dropWhile jsonWsChar = [] then some v else none
  | none => none

/-- The tail of the header pattern after the optional bracket group:
optional whitespace, an optional greedy brace-delimited metadata group,
optional whitespace, end of line. The greedy inner any-star means the
metadata, when the group participates, runs to the last closing brace,
and only an all-whitespace suffix may follow it. -/
def headerTailMeta (s : List Char) : Option (Option (List Char)) :=
  let s1 := s.dropWhile isWsChar
  match s1 with
  | [] => some none
  | c :: _ =>
    if c = '\x7b' then
      let body := (s1.reverse.dropWhile isWsChar).reverse
      match body.getLast? with
      | some d => if d = '\x7d' then some (some body) else none
      | none => none
    else none

/-- The tail of the header pattern after the passage-name group: optional
whitespace, an optional bracket-delimited tag group (tried first, with
fallback to skipping it when the rest of the line then fails), then the
metadata tail. -/
def headerTail (s : List Char) : Option (Option (List Char) × Option (List Char)) :=
  let s1 := s.dropWhile isWsChar
  let withBracket : Option (Option (List Char) × Option (List Char)) :=
    match s1 with
    | c :: rest =>
      if c = '[' then
        let inner := rest.takeWhile (· != ']')
        match rest.dropWhile (· != ']') with
        | ']' :: afterBr =>
          (headerTailMeta afterBr).map (fun meta => (some inner, meta))
        | _ => none
      else none
    | [] => none
  withBracket <|> (headerTailMeta s1).map (fun meta => (none, meta))

/-- The search the header pattern's backtracking performs after the two
leading colons: the leading whitespace run is greedy (longest first) and
the lazy one-or-more name group grows from one character up; the first
assignment whose tail matches wins. -/
def headerSearch (t : List Char) : Option (List Char × Option (List Char) × Option (List Char)) :=
  let maxWs := (t.takeWhile isWsChar).length
  ((List.range (maxWs + 1)).reverse).findSome? (fun w =>
    let rest := t.drop w
    (List.range rest.length).findSome? (fun i =>
      (headerTail (rest.drop (i + 1))).map
        (fun pr => (rest.take (i + 1), pr.1, pr.2))))

/-- The passage-header pattern of the line-format importer, applied to one
line: two colons, then the name, optional tag and optional metadata
groups. -/
def headerMatch (line : String) : Option (String × Option (List Char) × Option (List Char)) :=
  match line.data with
  | ':' :: ':' :: t =>
    (headerSearch t).map (fun pr => (String.mk pr.1, pr.2.1, pr.2.2))
  | _ => none

/-- The host parseInt on a decimal string: skip leading whitespace, an
optional sign, then the leading digit run; no digits means no numeric
value (the not-a-number outcome). The automatic hex prefix is included
for fidelity. -/
def jsParseInt (s : String) : Option ℤ :=
  let t := s.data.dropWhile isWsChar
  let (neg, t1) :=
    match t with
    | '-' :: rest => (true, rest)
    | '+' :: rest => (false, rest)
    | _ => (false, t)
  let hex :=
    match t1 with
    | '0' :: x :: rest => if x = 'x' ∨ x = 'X' then some rest else none
    | _ => none
  match hex with
  | some rest =>
    let ds := rest.takeWhile (fun c => (hexVal c).isSome)
    if ds = [] then none
    else
      let v : ℤ := (ds.foldl (fun a c => a * 16 + (hexVal c).getD 0) 0 : ℕ)
      some (if neg then -v else v)
  | none =>
    let ds := t1.takeWhile isDigitChar
    if ds = [] then none
    else
      let v : ℤ := (digitsVal ds : ℕ)
      some (if neg then -v else v)

/-- The parse-or-keep idiom of the importer (parseInt result or-else the
default): not-a-number and zero both fall back to the default. -/
def parseIntOr (s : String) (d : ℤ) : ℤ :=
  match jsParseInt s with
  | some v => if v = 0 then d else v
  | none => d

/-- The importer's per-passage parse mode: no current block, the title
block, the StoryData block with its accumulated text, the stylesheet or
script block, or an ordinary passage being accumulated. -/
inductive TweeMode where
  | none : TweeMode
  | title : TweeMode
  | storydata : List Char → TweeMode
  | stylesheet : TweeMode
  | script : TweeMode
  | passage : String → List String → ℚ → ℚ → ℚ → ℚ → String → TweeMode
  deriving Repr, DecidableEq

/-- The importer's loop state. -/
structure TweeState where
  passages : List (String × Passage)
  mode : TweeMode
  title : String
  startPassage : String
  ifid : String
  format : String
  formatVersion : String
  zoom : ℚ
  tagColors : JValue
  stylesheet : String
  javascript : String
  passageIndex : Nat
  deriving Repr

/-- Saving the passage being accumulated, if any: content trimmed, entry
assigned under the passage name. -/
def tweeSave (st : TweeState) : TweeState :=
  match st.mode with
  | .passage name tags x y w h content =>
    let p : Passage :=
      { name := name, content := jsTrim content, tags := tags,
        x := x, y := y, width := w, height := h }
    { st with passages := jsObjSet st.passages name p }
  | _ => st

/-- The importer's coordinate seeding from the optional metadata text:
grid defaults first, then, when the metadata parses as JSON, the position
and size components overwrite a coordinate only when they parse to a
non-zero integer (an absent second component and an empty one both fail
the integer parse and keep the default, so they are modelled alike); the
position member is processed before the size member, and a truthy
non-string member raises in the source, aborting the remaining
assignments while keeping the earlier ones. -/
def tweeSeedCoords (metaStr : Option String) (xDef yDef : ℤ) : ℤ × ℤ × ℤ × ℤ :=
  match metaStr.bind (fun ms => jparse ms) with
  | Option.none => (xDef, yDef, 100, 100)
  | some md =>
    let sizeStep : ℤ → ℤ → ℤ × ℤ × ℤ × ℤ := fun x y =>
      match jget md "size" with
      | some (.str sz) =>
        let parts := jsSplit [','] sz.data
        let w := parseIntOr (String.mk (parts.getD 0 [])) 100
        let h := parseIntOr (String.mk (parts.getD 1 [])) 100
        (x, y, w, h)
      | some v => if jtruthy v then (x, y, 100, 100) else (x, y, 100, 100)
      | Option.none => (x, y, 100, 100)
    match jget md "position" with
    | some (.str pos) =>
      let parts := jsSplit [','] pos.data
      let x := parseIntOr (String.mk (parts.getD 0 [])) xDef
      let y := parseIntOr (String.mk (parts.getD 1 [])) yDef
      sizeStep x y
    | some v => if jtruthy v then (xDef, yDef, 100, 100) else sizeStep xDef yDef
    | Option.none => sizeStep xDef yDef

/-- The importer's header handling: save the current block, then switch
mode; the reserved title and StoryData names and the stylesheet/script
tags select their modes without advancing the ordinary-passage index; any
other header opens an ordinary passage at the metadata-seeded or
grid-default coordinates and advances the index. -/
def tweeHeaderStep (st : TweeState) (name : String) (tags : List String)
    (metaStr : Option String) : TweeState :=
  let st := tweeSave st
  if name = "StoryTitle" then { st with mode := .title }
  else if name = "StoryData" then { st with mode := .storydata [] }
  else if "stylesheet" ∈ tags then { st with mode := .stylesheet }
  else if "script" ∈ tags then { st with mode := .script }
  else
    let xDef : ℤ := (100 + (st.passageIndex % 5) * 200 : ℕ)
    let yDef : ℤ := (100 + (st.passageIndex / 5) * 150 : ℕ)
    let q := tweeSeedCoords metaStr xDef yDef
    { st with
      mode := .passage name tags (q.1 : ℚ) (q.2.1 : ℚ) (q.2.2.1 : ℚ) (q.2.2.2 : ℚ) "",
      passageIndex := st.passageIndex + 1 }

/-- Extraction of a string member with or-else semantics restricted to
string values (the only values this code base stores there). -/
def jStrOr (v : Option JValue) (d : String) : String :=
  match v with
  | some (.str s) => if s ≠ "" then s else d
  | _ => d

/-- Extraction of a numeric member with or-else semantics restricted to
numeric values. -/
def jNumOr (v : Option JValue) (d : ℚ) : ℚ :=
  match v with
  | some (.num q) => if q ≠ 0 then q else d
  | _ => d

/-- The importer's handling of a non-header line under the current mode:
the title takes the last non-blank trimmed line; StoryData accumulates
text and re-attempts a JSON parse after every line, extracting the
metadata members on success; stylesheet and script accumulate raw lines;
an ordinary passage accumulates newline-joined content. -/
def tweeContentStep (st : TweeState) (line : String) : TweeState :=
  match st.mode with
  | .none => st
  | .title => if jsTrim line ≠ "" then { st with title := jsTrim line } else st
  | .storydata acc =>
    let acc2 := acc ++ line.data ++ ['\n']
    match jparse (String.mk acc2) with
    | some d =>
      { st with mode := TweeMode.storydata acc2,
                ifid := jStrOr (jget d "ifid") st.ifid,
                format := jStrOr (jget d "format") st.format,
                formatVersion := jStrOr (jget d "format-version") st.formatVersion,
                startPassage := jStrOr (jget d "start") st.startPassage,
                zoom := jNumOr (jget d "zoom") st.zoom,
                tagColors := jvOr (jget d "tag-colors") st.tagColors }
    | Option.none => { st with mode := .storydata acc2 }
  | .stylesheet => { st with stylesheet := st.stylesheet ++ line ++ "\n" }
  | .script => { st with javascript := st.javascript ++ line ++ "\n" }
  | .passage name tags x y w h content =>
    let content2 := content ++ (if content ≠ "" then "\n" else "") ++ line
    { st with mode := .passage name tags x y w h content2 }

/-- One line of the importer's loop: a header line switches blocks, any
other line feeds the current block. -/
def tweeStep (st : TweeState) (line : String) : TweeState :=
  match headerMatch line with
  | some (nameRaw, tagsG, metaG) =>
    tweeHeaderStep st (jsTrim nameRaw)
      (match tagsG with
       | some g => ((jsSplit [' '] g).map String.mk).filter (fun t => t ≠ "")
       | Option.none => [])
      (metaG.map String.mk)
  | Option.none => tweeContentStep st line

/-- The importer's initial state, a fresh identifier and the documented
defaults. -/
def tweeInit : TweeState :=
  { passages := [], mode := .none, title := "Imported Story",
    startPassage := "Start", ifid := genIFID, format := "", formatVersion := "",
    zoom := 1, tagColors := JValue.obj [], stylesheet := "", javascript := "",
    passageIndex := 0 }

/-- The line-format importer: fold the per-line step over the lines, save
the last block, and fail with no result when no ordinary passage was
found. -/
def parseTwee (content : String) : Option Story :=
  let lines := (jsSplit ['\n'] content.data).map String.mk
  let st := tweeSave (lines.foldl tweeStep tweeInit)
  if st.passages = [] then none
  else some
    { title := st.title, startPassage := st.startPassage,
      passages := st.passages, ifid := st.ifid, format := st.format,
      formatVersion := st.formatVersion, zoom := st.zoom, tags := "",
      stylesheet := jsTrim st.stylesheet, javascript := jsTrim st.javascript,
      tagColors := st.tagColors }

/-- The host lower-casing restricted to the basic letters this code base
meets in file names. -/
def jsToLower (s : String) : String :=
  String.mk (s.data.map (fun c =>
    if 65 ≤ c.toNat ∧ c.toNat ≤ 90 then Char.ofNat (c.toNat + 32) else c))

/-- The extension hint of the format detector: the last dot-separated
field of the lower-cased file name (the whole name when it has no dot). -/
def extOf (filename : String) : String :=
  String.mk ((jsSplit ['.'] (jsToLower filename).data).getLastD [])

/-- Whether the trimmed content starts with an opening brace. -/
def startsWithBrace (s : String) : Bool :=
  match (jsTrim s).data with
  | c :: _ => c = '\x7b'
  | [] => false

/-- The format detector's dispatch, over the three parsers it can call:
the extension hint routes to one parser whose result — including no
result — is returned as is; only an unrecognized extension falls through
to content sniffing in the documented order. -/
def parseFileWith {α : Type} (pj pt ph : String → Option α)
    (content filename : String) : Option α :=
  let ext := extOf filename
  if ext = "json" then pj content
  else if ext = "twee" ∨ ext = "tw" then pt content
  else if ext = "html" ∨ ext = "htm" then
    match ph content with
    | some r => some r
    | none => none
  else if startsWithBrace content then pj content
  else if jsIncludes content "<tw-storydata" then ph content
  else if jsIncludes content "::" then pt content
  else none

/-- The JSON importer at the text level: the host JSON parse followed by
the shape check and defaulting. -/
def parseJsonText (content : String) : Option JValue :=
  (jparse content).bind parseJson

/-- The line-format importer with its result rendered as the story's JSON
tree, giving the detector's parsers one result type (the host returns
plain story objects from every parser). -/
def parseTweeJ (content : String) : Option JValue :=
  (parseTwee content).map storyToJson

/-- Modelled from the spec: the archive importer parses markup through
the host document parser, behavior not present in the source tree; no
claim in scope exercises its output, so it is modelled only as a parser
the detector can dispatch to, returning the no-result signal the spec
documents for an absent container. -/
def parseTwineM (_content : String) : Option JValue := none

/-- The format detector over the concrete parsers. -/
def parseFile (content filename : String) : Option JValue :=
  parseFileWith parseJsonText parseTweeJ parseTwineM content filename

/-- A concrete two-passage story used to exercise concrete instances of
the theorems below. -/
def storyTwoPassages : Story :=
  { title := "T", startPassage := "Start",
    passages := [("Start", { name := "Start", content := "go [[Cave]]",
                             tags := [], x := 1, y := 1, width := 100, height := 100 }),
                 ("Cave", { name := "Cave", content := "dark",
                            tags := [], x := 2, y := 2, width := 100, height := 100 })],
    ifid := "ABCD", format := "", formatVersion := "", zoom := 1, tags := "",
    stylesheet := "", javascript := "", tagColors := JValue.obj [] }

/-- Claim C4: parsing the output of the JSON generator yields the same
story exactly, for stories satisfying the data-model invariants (non-empty
title, ifid present, start passage resolving to a passage with a non-empty
name, positive zoom, tag colors an object): every field, the full passage
map and the script content included, is preserved verbatim. -/
theorem json_roundtrip_exact (s : Story)
    (htitle : s.title ≠ "")
    (hifid : s.ifid ≠ "")
    (hzoom : 0 < s.zoom)
    (hstart : s.startPassage ∈ s.passages.map Prod.fst)
    (hnames : ∀ kv ∈ s.passages, kv.1 ≠ "")
    (htc : ∃ l, s.tagColors = JValue.obj l) :
    parseJson (storyToJson s) = some (storyToJson s) := by
  obtain ⟨l, hl⟩ := htc
  have hsp : s.startPassage ≠ "" := by
    obtain ⟨kv, hkv, heq⟩ := List.mem_map.mp hstart
    exact heq ▸ hnames kv hkv
  simp only [parseJson, storyToJson, jget, jlookup, jvOr, jtruthy, hl]
  simp only [if_pos rfl, if_neg, reduceIte]
  simp_all [jtruthy, jvOr]
  exact hzoom.ne'

/-- Witness for claim C4 at a concrete story. -/
theorem json_roundtrip_exact_witness :
    parseJson (storyToJson
      { title := "T", startPassage := "Start",
        passages := [("Start", { name := "Start", content := "go [[Cave]]",
                                 tags := ["a"], x := 1, y := 2, width := 100, height := 100 }),
                     ("Cave", { name := "Cave", content := "dark",
                                tags := [], x := 3, y := 4, width := 100, height := 100 })],
        ifid := "ABCD", format := "Harlowe", formatVersion := "3.3.9",
        zoom := 1, tags := "", stylesheet := "", javascript := "",
        tagColors := JValue.obj [("a", JValue.str "red")] }) =
    some (storyToJson
      { title := "T", startPassage := "Start",
        passages := [("Start", { name := "Start", content := "go [[Cave]]",
                                 tags := ["a"], x := 1, y := 2, width := 100, height := 100 }),
                     ("Cave", { name := "Cave", content := "dark",
                                tags := [], x := 3, y := 4, width := 100, height := 100 })],
        ifid := "ABCD", format := "Harlowe", formatVersion := "3.3.9",
        zoom := 1, tags := "", stylesheet := "", javascript := "",
        tagColors := JValue.obj [("a", JValue.str "red")] }) :=
  json_roundtrip_exact _ (by decide) (by decide) (by norm_num)
    (by decide) (by decide) ⟨_, rfl⟩

theorem splitFirstStr_lt (sep : List Char) :
    ∀ s a b, splitFirstStr sep s = some (a, b) → b.length < s.length := by
  intro s
  induction s with
  | nil => intro a b h; simp [splitFirstStr] at h
  | cons c cs ih =>
    intro a b h
    simp only [splitFirstStr] at h
    split at h
    · rename_i hcond
      obtain ⟨hsep, -⟩ := hcond
      have hlen : sep.length ≠ 0 := fun h0 => hsep (List.length_eq_zero.mp h0)
      obtain ⟨rfl, rfl⟩ := Prod.mk.injEq .. ▸ Option.some.inj h
      simp only [List.length_drop, List.length_cons]
      omega
    · split at h
      · rename_i a2 b2 h2
        obtain ⟨rfl, rfl⟩ := Prod.mk.injEq .. ▸ Option.some.inj h
        have := ih _ _ h2
        simp only [List.length_cons]
        omega
      · exact absurd h (by simp)

theorem jsSplitF_ne_nil (sep : List Char) :
    ∀ fuel s, jsSplitF sep fuel s ≠ [] := by
  intro fuel s
  cases fuel with
  | zero => simp [jsSplitF]
  | succ n =>
    simp only [jsSplitF]
    split <;> simp

theorem getLastD_default_irrel {α : Type} (l : List α) (d d' : α) (h : l ≠ []) :
    l.getLastD d = l.getLastD d' := by
  cases l with
  | nil => exact absurd rfl h
  | cons a t => rw [List.getLastD_cons, List.getLastD_cons]

theorem jsSplit_getD_one (sep s : List Char) (a b : List Char)
    (h : splitFirstStr sep s = some (a, b)) :
    (jsSplit sep s).getD 1 [] = upToFirstSep sep b := by
  have hlt := splitFirstStr_lt sep s a b h
  unfold jsSplit
  have h1 : s.length + 1 = s.length + 1 := rfl
  simp only [jsSplitF, h]
  rw [List.getD_cons_succ]
  obtain ⟨m, hm⟩ : ∃ m, s.length = m + 1 := by
    cases hs : s.length with
    | zero => omega
    | succ k => exact ⟨k, rfl⟩
  rw [hm]
  simp only [jsSplitF, upToFirstSep]
  cases h2 : splitFirstStr sep b with
  | none => simp
  | some ab2 => cases ab2 with | mk a2 b2 => simp

theorem jsSplitF_getLastD (sep : List Char) :
    ∀ fuel s, s.length < fuel →
      (jsSplitF sep fuel s).getLastD [] = afterLastSepF sep fuel s := by
  intro fuel
  induction fuel with
  | zero => intro s h; omega
  | succ n ih =>
    intro s h
    simp only [jsSplitF, afterLastSepF]
    cases h2 : splitFirstStr sep s with
    | none => simp
    | some ab =>
      cases ab with
      | mk a b =>
        have hlt := splitFirstStr_lt sep s a b h2
        rw [List.getLastD_cons,
            getLastD_default_irrel _ a [] (jsSplitF_ne_nil sep n b)]
        exact ih b (by omega)

theorem jsSplit_getLastD (sep s : List Char) :
    (jsSplit sep s).getLastD [] = afterLastSep sep s :=
  jsSplitF_getLastD sep (s.length + 1) s (by omega)

theorem targetOfInner_eq_spec (inner : List Char) :
    targetOfInner inner = targetOfInnerSpec inner := by
  unfold targetOfInner targetOfInnerSpec
  cases h : splitFirstStr arrowSep inner with
  | none =>
    rw [if_neg (by simp), jsSplit_getLastD]
  | some ab =>
    cases ab with
    | mk a rest =>
      rw [if_pos (by simp), jsSplit_getD_one arrowSep inner a rest h]

theorem extractLinks_eq_spec (content : String) :
    extractLinks content = extractLinksSpec content := by
  unfold extractLinks extractLinksSpec
  have hfun : targetOfInner = targetOfInnerSpec := funext targetOfInner_eq_spec
  rw [hfun]

/-- Claim C3 (amended): extractLinks returns the targets of the link
markers in order of appearance, where inside each marker a content
containing the arrow token yields the text between the first arrow and
the following arrow (or the end of the marker) trimmed, a content with no
arrow but a pipe yields the text after the last pipe trimmed, and
otherwise the whole marker content trimmed; the four documented examples
hold. -/
theorem extractLinks_spec_conformance :
    (∀ content : String, extractLinks content = extractLinksSpec content) ∧
    extractLinks "[[Go->Cave]]" = ["Cave"] ∧
    extractLinks "[[Cave|Enter]]" = ["Enter"] ∧
    extractLinks "[[Cave]]" = ["Cave"] ∧
    extractLinks "no links here" = [] :=
  ⟨extractLinks_eq_spec, by decide, by decide, by decide, by decide⟩

/-- Claim C3 counterexample: on a marker whose content holds two arrow
tokens the extractor returns the field between the first and second
arrow, not everything after the first arrow as the claim states, which
would be the string b arrow c. -/
theorem extractLinks_first_arrow_counterexample :
    extractLinks "[[a->b->c]]" = ["b"] ∧ extractLinks "[[a->b->c]]" ≠ ["b->c"] := by
  constructor
  · decide
  · decide

set_option maxRecDepth 8000 in
/-- Claim C9: passage-name validation rejects the empty or whitespace-only
name, names longer than 200 characters, names containing a dot or any of
the bracket, brace, hash, dollar and slash characters, and the reserved
words; the four documented rejections hold and the name Cave 2 is
accepted. -/
theorem validatePassageName_spec :
    (∀ name : String, jsTrim name = "" → validatePassageName name ≠ none) ∧
    (∀ name : String, 200 < name.length → validatePassageName name ≠ none) ∧
    (∀ name : String, '.' ∈ name.data → validatePassageName name ≠ none) ∧
    (∀ name : String, (∃ c ∈ name.data, c ∈ invalidNameChars) →
      validatePassageName name ≠ none) ∧
    (∀ name ∈ reservedNames, validatePassageName name ≠ none) ∧
    validatePassageName "a.b" ≠ none ∧
    validatePassageName "a[b]" ≠ none ∧
    validatePassageName "__proto__" ≠ none ∧
    validatePassageName (String.mk (List.replicate 201 'a')) ≠ none ∧
    validatePassageName "Cave 2" = none := by
  refine ⟨?_, ?_, ?_, ?_, ?_, by decide, by decide, by decide, ?_, by decide⟩
  · intro name h
    simp only [validatePassageName]
    split_ifs <;> simp_all
  · intro name h
    simp only [validatePassageName]
    split_ifs <;> simp_all
  · intro name h
    simp only [validatePassageName]
    split_ifs <;> simp_all
  · intro name h
    simp only [validatePassageName]
    split_ifs <;> simp_all
  · intro name h
    simp only [validatePassageName]
    split_ifs <;> simp_all
  · have h : 200 < (String.mk (List.replicate 201 'a')).length := by decide
    simp only [validatePassageName]
    split_ifs <;> simp_all

/-- Witness for claim C9 at a concrete whitespace-only name. -/
theorem validatePassageName_spec_witness :
    jsTrim " " = "" ∧ validatePassageName " " ≠ none :=
  ⟨by decide, validatePassageName_spec.1 " " (by decide)⟩

theorem map_fst_filter_ne {α : Type} (l : List (String × α)) (name : String) :
    (l.filter (fun kv => kv.1 != name)).map Prod.fst =
      (l.map Prod.fst).filter (· != name) := by
  induction l with
  | nil => rfl
  | cons a t ih =>
    by_cases h : a.1 = name <;>
      simp [List.filter_cons, h, ih]

/-- Claim C6: deleting the only passage fails with the LastPassage
outcome; with at least two passages (unique keys), deleting the current
start passage succeeds, the start is repointed to the lowest-order
remaining key, that key still resolves to an existing passage, and the
new start name is reported to the caller. -/
theorem deletePassage_spec :
    (∀ (s : Story) (name : String) (p : Passage), s.passages = [(name, p)] →
      deletePassage s name = .error .LastPassage) ∧
    (∀ (s : Story) (name : String), 2 ≤ s.passages.length →
      (s.passages.map Prod.fst).Nodup → name = s.startPassage →
      ∃ ns : String, ∃ s2 : Story,
        deletePassage s name = .ok (s2, some ns) ∧
        some ns = ((s.passages.map Prod.fst).filter (· != name)).head? ∧
        s2.startPassage = ns ∧
        ns ∈ s2.passages.map Prod.fst ∧
        s2.passages = s.passages.filter (fun kv => kv.1 != name)) := by
  constructor
  · intro s name p h
    simp [deletePassage, h]
  · intro s name hlen hnodup hstart
    have hnot : ¬ s.passages.length ≤ 1 := by omega
    have hex : ∃ x ∈ s.passages.map Prod.fst, (x != name) = true := by
      rcases hp : s.passages with _ | ⟨a, _ | ⟨b, t2⟩⟩
      · rw [hp] at hlen; simp at hlen
      · rw [hp] at hlen; simp at hlen
      · rw [hp] at hnodup
        simp only [List.map_cons] at hnodup
        have hab : a.1 ≠ b.1 := by
          have h1 := (List.nodup_cons.mp hnodup).1
          exact fun hh => h1 (hh ▸ List.mem_cons_self _ _)
        rcases eq_or_ne a.1 name with h1 | h1
        · refine ⟨b.1, by simp [hp], ?_⟩
          simp only [bne_iff_ne, ne_eq]
          exact fun hh => hab (h1.trans hh.symm)
        · refine ⟨a.1, by simp [hp], ?_⟩
          simp only [bne_iff_ne, ne_eq]
          exact h1
    have hsome : ((s.passages.map Prod.fst).find? (· != name)).isSome :=
      List.find?_isSome.mpr hex
    obtain ⟨ns, hfind⟩ := Option.isSome_iff_exists.mp hsome
    refine ⟨ns, { s with passages := s.passages.filter (fun kv => kv.1 != name),
                         startPassage := ns }, ?_, ?_, rfl, ?_, rfl⟩
    · have hcond : s.startPassage = name := hstart.symm
      simp [deletePassage, hnot, hcond, hfind]
    · rw [List.filter_head?]
      exact hfind.symm
    · show ns ∈ (s.passages.filter (fun kv => kv.1 != name)).map Prod.fst
      rw [map_fst_filter_ne]
      have hp2 := List.find?_some hfind
      exact List.mem_filter.mpr ⟨List.mem_of_find?_eq_some hfind, hp2⟩
/-- Witness for claim C6: the concrete two-passage story whose start
passage is deleted. -/
theorem deletePassage_spec_witness :
    2 ≤ storyTwoPassages.passages.length ∧
    (∃ ns : String, ∃ s2 : Story,
      deletePassage storyTwoPassages "Start" = .ok (s2, some ns) ∧
      some ns = ((storyTwoPassages.passages.map Prod.fst).filter (· != "Start")).head? ∧
      s2.startPassage = ns ∧
      ns ∈ s2.passages.map Prod.fst ∧
      s2.passages = storyTwoPassages.passages.filter (fun kv => kv.1 != "Start")) :=
  ⟨by decide, deletePassage_spec.2 storyTwoPassages "Start" (by decide) (by decide) rfl⟩

theorem splitFirstStr_eq (sep : List Char) :
    ∀ s a b, splitFirstStr sep s = some (a, b) → s = a ++ sep ++ b := by
  intro s
  induction s with
  | nil => intro a b h; simp [splitFirstStr] at h
  | cons c cs ih =>
    intro a b h
    simp only [splitFirstStr] at h
    split at h
    · rename_i hcond
      obtain ⟨rfl, rfl⟩ := Prod.mk.injEq .. ▸ Option.some.inj h
      have hpre : sep <+: (c :: cs) := List.isPrefixOf_iff_prefix.mp hcond.2
      obtain ⟨t2, ht⟩ := hpre
      rw [← ht]
      simp [List.drop_left]
    · split at h
      · rename_i a2 b2 h2
        obtain ⟨rfl, rfl⟩ := Prod.mk.injEq .. ▸ Option.some.inj h
        have := ih _ _ h2
        simp [this]
      · exact absurd h (by simp)

theorem lazySegAt_eq :
    ∀ cs seg r, lazySegAt cs = some (seg, r) →
      cs = '[' :: '[' :: (seg ++ ']' :: ']' :: r) := by
  intro cs seg r h
  cases cs with
  | nil => simp [lazySegAt] at h
  | cons c1 rest =>
    cases rest with
    | nil => simp [lazySegAt] at h
    | cons c2 t =>
      simp only [lazySegAt] at h
      split at h
      · rename_i hc
        obtain ⟨rfl, rfl⟩ := hc
        split at h
        · rename_i r1 r2 rr hdrop
          split at h
          · rename_i hr
            obtain ⟨rfl, rfl⟩ := hr
            obtain ⟨rfl, rfl⟩ := Prod.mk.injEq .. ▸ Option.some.inj h
            have hsplit := List.takeWhile_append_dropWhile (· != ']') t
            rw [hdrop] at hsplit
            conv_lhs => rw [← hsplit]
          · exact absurd h (by simp)
        · exact absurd h (by simp)
      · exact absurd h (by simp)

theorem bareMatchAt_eq :
    ∀ cs t r, bareMatchAt cs = some (t, r) →
      cs = '[' :: '[' :: (t ++ ']' :: ']' :: r) := by
  intro cs t0 r h
  cases cs with
  | nil => simp [bareMatchAt] at h
  | cons c1 rest =>
    cases rest with
    | nil => simp [bareMatchAt] at h
    | cons c2 t =>
      simp only [bareMatchAt] at h
      split at h
      · rename_i hc
        obtain ⟨rfl, rfl⟩ := hc
        split at h
        · rename_i r1 r2 rr hdrop
          split at h
          · rename_i hr
            obtain ⟨rfl, rfl⟩ := hr
            obtain ⟨rfl, rfl⟩ := Prod.mk.injEq .. ▸ Option.some.inj h
            have hsplit :=
              List.takeWhile_append_dropWhile
                (fun c => c != ']' && c != '|' && c != '>') t
            rw [hdrop] at hsplit
            conv_lhs => rw [← hsplit]
          · exact absurd h (by simp)
        · exact absurd h (by simp)
      · exact absurd h (by simp)

theorem sepMatchAt_eq (sep : List Char) (cs seg d t r : List Char)
    (h : sepMatchAt sep cs = some (seg, d, t, r)) :
    cs = '[' :: '[' :: (seg ++ ']' :: ']' :: r) ∧ seg = d ++ sep ++ t := by
  unfold sepMatchAt at h
  split at h
  · rename_i seg2 r2 hlaz
    split at h
    · rename_i d2 t2 hsp
      simp only [Option.some.injEq, Prod.mk.injEq] at h
      obtain ⟨rfl, rfl, rfl, rfl⟩ := h
      exact ⟨lazySegAt_eq _ _ _ hlaz, splitFirstStr_eq sep _ _ _ hsp⟩
    · exact absurd h (by simp)
  · exact absurd h (by simp)

theorem sepPassF_noop (sep : List Char) (oldN newN : String) :
    ∀ fuel cs, cs.length < fuel → oldN ∉ sepTargetsF sep fuel cs →
      sepPassF sep oldN newN fuel cs = cs := by
  intro fuel
  induction fuel with
  | zero => intro cs h hm; exact absurd h (Nat.not_lt_zero _)
  | succ n ih =>
    intro cs hlen hmem
    cases cs with
    | nil => rfl
    | cons c cs2 =>
      cases hm : sepMatchAt sep (c :: cs2) with
      | none =>
        simp only [sepPassF, sepTargetsF, hm] at hmem ⊢
        rw [ih cs2 (by simp only [List.length_cons] at hlen; omega) hmem]
      | some quad =>
        obtain ⟨seg, d, t, r⟩ := quad
        obtain ⟨hcs, hseg⟩ := sepMatchAt_eq sep (c :: cs2) seg d t r hm
        have hlencs : (c :: cs2).length = seg.length + r.length + 4 := by
          rw [hcs]; simp [List.length_append]; omega
        have hlr : r.length < n := by
          have h2 : (c :: cs2).length < n + 1 := hlen
          omega
        simp only [sepPassF, sepTargetsF, hm] at hmem ⊢
        rw [List.mem_cons] at hmem
        push_neg at hmem
        obtain ⟨hne, hmem2⟩ := hmem
        rw [if_neg (fun hh => hne hh.symm)]
        rw [ih r hlr hmem2]
        rw [hcs]
        simp

theorem barePassF_noop (oldN newN : String) :
    ∀ fuel cs, cs.length < fuel → oldN ∉ bareTargetsF fuel cs →
      barePassF oldN newN fuel cs = cs := by
  intro fuel
  induction fuel with
  | zero => intro cs h hm; exact absurd h (Nat.not_lt_zero _)
  | succ n ih =>
    intro cs hlen hmem
    cases cs with
    | nil => rfl
    | cons c cs2 =>
      cases hm : bareMatchAt (c :: cs2) with
      | none =>
        simp only [barePassF, bareTargetsF, hm] at hmem ⊢
        rw [ih cs2 (by simp only [List.length_cons] at hlen; omega) hmem]
      | some pr =>
        obtain ⟨t, r⟩ := pr
        have hcs := bareMatchAt_eq (c :: cs2) t r hm
        have hlencs : (c :: cs2).length = t.length + r.length + 4 := by
          rw [hcs]; simp [List.length_append]; omega
        have hlr : r.length < n := by
          have h2 : (c :: cs2).length < n + 1 := hlen
          omega
        simp only [barePassF, bareTargetsF, hm] at hmem ⊢
        rw [List.mem_cons] at hmem
        push_neg at hmem
        obtain ⟨hne, hmem2⟩ := hmem
        rw [if_neg (fun hh => hne hh.symm)]
        rw [ih r hlr hmem2]
        rw [hcs]
        simp

theorem renameRewrite_noop (oldN newN : String) (c : String)
    (h1 : oldN ∉ sepTargets pipeSep c.data)
    (h2 : oldN ∉ sepTargets arrowSep c.data)
    (h3 : oldN ∉ bareTargets c.data) :
    renameRewrite oldN newN c = c := by
  unfold renameRewrite sepPass barePass
  unfold sepTargets at h1 h2
  unfold bareTargets at h3
  rw [sepPassF_noop pipeSep oldN newN (c.data.length + 1) c.data (by omega) h1]
  rw [sepPassF_noop arrowSep oldN newN (c.data.length + 1) c.data (by omega) h2]
  rw [barePassF_noop oldN newN (c.data.length + 1) c.data (by omega) h3]

theorem alookup_eq_none {α : Type} :
    ∀ (l : List (String × α)) (k : String), alookup l k = none →
      ∀ kv ∈ l, kv.1 ≠ k := by
  intro l k
  induction l with
  | nil => intro h kv hkv; simp at hkv
  | cons a t ih =>
    intro h kv hkv
    simp only [alookup] at h
    split at h
    · exact absurd h (by simp)
    · rename_i hne
      rcases List.mem_cons.mp hkv with rfl | hmem
      · exact hne
      · exact ih h kv hmem

/-- Claim C5 (amended): for a valid, non-colliding rename on a story whose
passage name fields match their keys, if no other passage's content holds
a match of any of the three rewrite patterns whose pattern target equals
the old name, the rename changes only the renamed passage's key and name
field and leaves every other entry byte-for-byte unchanged; and on any
content in which no pattern target equals the old name the rewrite is the
identity, hence idempotent. -/
theorem renamePassage_frame (s : Story) (oldN newN : String) (p : Passage)
    (hvalid : validatePassageName newN = none)
    (hnocol : alookup s.passages newN = none)
    (hold : alookup s.passages oldN = some p)
    (hnames : ∀ kv ∈ s.passages, kv.2.name = kv.1)
    (hq : ∀ kv ∈ s.passages, kv.1 ≠ oldN →
      oldN ∉ sepTargets pipeSep kv.2.content.data ∧
      oldN ∉ sepTargets arrowSep kv.2.content.data ∧
      oldN ∉ bareTargets kv.2.content.data) :
    (renamePassage s oldN newN =
      .ok { s with
            passages := s.passages.filter (fun kv => kv.1 != oldN)
              ++ [(newN, { p with name := newN })],
            startPassage := if s.startPassage = oldN then newN
              else s.startPassage }) ∧
    (∀ c : String,
      oldN ∉ sepTargets pipeSep c.data → oldN ∉ sepTargets arrowSep c.data →
      oldN ∉ bareTargets c.data →
      renameRewrite oldN newN c = c ∧
      renameRewrite oldN newN (renameRewrite oldN newN c) =
        renameRewrite oldN newN c) := by
  constructor
  · have hkeys := alookup_eq_none s.passages newN hnocol
    unfold renamePassage
    simp only [hvalid, hnocol, Option.isSome_none, Bool.false_eq_true, if_false, hold]
    have hmapeq : ∀ kv ∈ s.passages.filter (fun kv => kv.1 != oldN),
        (fun kv : String × Passage =>
          if kv.2.name = newN then kv
          else if kv.2.content = "" then kv
          else (kv.1, { kv.2 with
                        content := renameRewrite oldN newN kv.2.content })) kv
          = id kv := by
      intro kv hkv
      obtain ⟨hmem, hneb⟩ := List.mem_filter.mp hkv
      have hne : kv.1 ≠ oldN := by simpa using hneb
      have h1 : kv.2.name = kv.1 := hnames kv hmem
      have h2 : kv.1 ≠ newN := hkeys kv hmem
      simp only [id]
      rw [if_neg (by rw [h1]; exact h2)]
      by_cases hc : kv.2.content = ""
      · rw [if_pos hc]
      · rw [if_neg hc]
        obtain ⟨q1, q2, q3⟩ := hq kv hmem hne
        rw [renameRewrite_noop oldN newN kv.2.content q1 q2 q3]
    rw [List.map_append, List.map_congr_left hmapeq, List.map_id]
    simp
  · intro c q1 q2 q3
    have hno := renameRewrite_noop oldN newN c q1 q2 q3
    refine ⟨hno, ?_⟩
    rw [hno]
    exact hno

/-- Witness for claim C5 at a concrete story whose only link reference
targets a third passage. -/
theorem renamePassage_frame_witness :
    validatePassageName "A2" = none ∧
    ((renamePassage renameDemoStory "A" "A2" =
      .ok { renameDemoStory with
            passages := renameDemoStory.passages.filter (fun kv => kv.1 != "A")
              ++ [("A2", { renameDemoPassageA with name := "A2" })],
            startPassage := if renameDemoStory.startPassage = "A" then "A2"
              else renameDemoStory.startPassage }) ∧
     (∀ c : String,
      "A" ∉ sepTargets pipeSep c.data → "A" ∉ sepTargets arrowSep c.data →
      "A" ∉ bareTargets c.data →
      renameRewrite "A" "A2" c = c ∧
      renameRewrite "A" "A2" (renameRewrite "A" "A2" c) =
        renameRewrite "A" "A2" c)) :=
  ⟨by decide,
   renamePassage_frame renameDemoStory "A" "A2" renameDemoPassageA
     (by decide) (by decide) (by decide) (by decide) (by decide)⟩

/-- Claim C5 counterexample: renaming the passage named x arrow c (a valid
name) to y rewrites a marker with two arrow tokens in another passage even
though the extracted target of that marker per the link extractor is the
string x, which differs from the old name: the rewrite patterns split the
marker at its first arrow and take everything up to the closing brackets
as the target, unlike the extractor. -/
theorem rename_extracted_target_counterexample :
    extractLinks "[[a->x->c]]" = ["x"] ∧
    ("x" : String) ≠ "x->c" ∧
    validatePassageName "y" = none ∧
    renamePassage renameCounterStory "x->c" "y" =
      .ok { title := "T", startPassage := "z",
            passages := [("z", { name := "z", content := "[[a->y]]", tags := [],
                                 x := 2, y := 2, width := 100, height := 100 }),
                         ("y", { name := "y", content := "", tags := [],
                                 x := 1, y := 1, width := 100, height := 100 })],
            ifid := "I", format := "", formatVersion := "", zoom := 1, tags := "",
            stylesheet := "", javascript := "", tagColors := JValue.obj [] } ∧
    ("[[a->y]]" : String) ≠ "[[a->x->c]]" := by
  refine ⟨by decide, by decide, by decide, ?_, by decide⟩
  rfl

/-- Claim C10: even with both the title and passages keys present, a falsy
title value (such as the empty string) makes the JSON importer return no
result; a result is produced exactly when the title and passages members
are both present and truthy. -/
theorem parseJson_falsy_title :
    (∀ (fields : List (String × JValue)) (v w : JValue),
      jlookup fields "title" = some v → jlookup fields "passages" = some w →
      jtruthy v = false → parseJson (JValue.obj fields) = none) ∧
    (∀ data : JValue, (parseJson data).isSome =
      (truthyOpt (jget data "title") && truthyOpt (jget data "passages"))) := by
  constructor
  · intro fields v w h1 h2 h3
    simp [parseJson, jget, h1, h2, h3]
  · intro data
    unfold parseJson
    cases h1 : jget data "title" with
    | none => simp [truthyOpt, h1]
    | some v =>
      cases h2 : jget data "passages" with
      | none => simp [truthyOpt, h1, h2]
      | some w =>
        simp only [truthyOpt, h1, h2]
        cases hv : jtruthy v <;> cases hw : jtruthy w <;> simp [hv, hw]

/-- Witness for claim C10 at a concrete object with an empty-string title
and a present passages member. -/
theorem parseJson_falsy_title_witness :
    jlookup [("title", JValue.str ""), ("passages", JValue.obj [])] "title"
      = some (JValue.str "") ∧
    jtruthy (JValue.str "") = false ∧
    parseJson (JValue.obj [("title", JValue.str ""), ("passages", JValue.obj [])])
      = none :=
  ⟨rfl, rfl, parseJson_falsy_title.1 _ _ _ rfl rfl rfl⟩

/-- Claim C1 (code bug): the playable document's embedded runtime places
passage content into renderable markup without entity-escaping it — only
the title goes through the escaper. On a passage whose content is markup,
the rendered output contains that markup verbatim, where the claim and
the spec require the escaped form, which differs. -/
theorem playable_content_unescaped :
    showPassageHtml playableDemoStory "Start"
      = "<h1>T</h1><p><b>Pwn</b></p>" ∧
    showPassageHtml { playableDemoStory with title := "A&B" } "Start"
      = "<h1>A&amp;B</h1><p><b>Pwn</b></p>" ∧
    escapeHtml "<b>Pwn</b>" = "&lt;b&gt;Pwn&lt;/b&gt;" ∧
    ("<b>Pwn</b>" : String) ≠ "&lt;b&gt;Pwn&lt;/b&gt;" := by
  refine ⟨?_, ?_, by decide, by decide⟩
  · rfl
  · rfl

theorem jsRound_int (q : ℚ) (h : q.den = 1) : jsRound q = q.num := by
  unfold jsRound
  rw [h]
  push_cast
  rw [Int.fdiv_eq_ediv _ (by norm_num)]
  omega

theorem qToStr_int (q : ℚ) (h : q.den = 1) :
    qToStr q = String.mk (intToStr (jsRound q)) := by
  rw [qToStr, if_pos h, jsRound_int q h]

theorem numOr_den_one (q : ℚ) (h : q.den = 1) : (numOr q 100).den = 1 := by
  unfold numOr
  split
  · decide
  · exact h

theorem tweeBlock_eq_spec (p : Passage) (hw : p.width.den = 1)
    (hh : p.height.den = 1) : tweePassageBlock p = tweePassageBlockSpec p := by
  unfold tweePassageBlock tweePassageBlockSpec
  rw [qToStr_int _ (numOr_den_one _ hw), qToStr_int _ (numOr_den_one _ hh)]

set_option maxRecDepth 16000 in
/-- Claim C8: the line-format generator emits one block per passage in
insertion order, the tag list space-joined and omitted entirely when the
passage has no tags, and the metadata values integers: under the
data-model invariant that sizes are integers, the generator's output
coincides with the specification-worded generator that embeds rounded
integer position and size; a concrete story evaluates to the exact
expected text. -/
theorem generateTwee_spec_conformance :
    (∀ story : Story,
      (∀ kv ∈ story.passages, kv.2.width.den = 1 ∧ kv.2.height.den = 1) →
      generateTwee story = generateTweeSpec story) ∧
    generateTwee storyTwoPassages =
      ":: StoryTitle\nT\n\n:: StoryData\n\x7b\n  \"ifid\": \"ABCD\",\n  \"format\": \"Harlowe\",\n  \"format-version\": \"3.3.9\",\n  \"start\": \"Start\",\n  \"zoom\": 1\n\x7d\n\n:: Start \x7b\"position\":\"1,1\",\"size\":\"100,100\"\x7d\ngo [[Cave]]\n\n:: Cave \x7b\"position\":\"2,2\",\"size\":\"100,100\"\x7d\ndark" := by
  constructor
  · intro story hsize
    unfold generateTwee generateTweeSpec
    have hm : story.passages.map (fun kv => tweePassageBlock kv.2)
        = story.passages.map (fun kv => tweePassageBlockSpec kv.2) :=
      List.map_congr_left
        (fun kv hkv => tweeBlock_eq_spec kv.2 (hsize kv hkv).1 (hsize kv hkv).2)
    rw [hm]
  · decide

/-- Witness for claim C8 at the concrete two-passage story. -/
theorem generateTwee_spec_conformance_witness :
    (∀ kv ∈ storyTwoPassages.passages,
      kv.2.width.den = 1 ∧ kv.2.height.den = 1) ∧
    generateTwee storyTwoPassages = generateTweeSpec storyTwoPassages :=
  ⟨by decide, generateTwee_spec_conformance.1 storyTwoPassages (by decide)⟩

theorem tweeSave_passageIndex (st : TweeState) :
    (tweeSave st).passageIndex = st.passageIndex := by
  unfold tweeSave
  split <;> rfl

/-- Claim C7 (amended): an ordinary line-format passage header with
metadata whose position and size components each parse to a non-zero
integer takes its coordinates from that metadata; with no parseable
metadata the coordinates default to the grid layout on the 0-based
ordinary-passage index; reserved and tagged headers never advance the
index; and the documented end-to-end import lays its two passages out on
the grid. -/
theorem parseTwee_grid_spec :
    (∀ (st : TweeState) (name : String) (tags : List String)
        (metaStr : Option String),
      name ≠ "StoryTitle" → name ≠ "StoryData" →
      "stylesheet" ∉ tags → "script" ∉ tags →
      (tweeHeaderStep st name tags metaStr).passageIndex = st.passageIndex + 1 ∧
      (metaStr.bind (fun ms => jparse ms) = none →
        (tweeHeaderStep st name tags metaStr).mode =
          TweeMode.passage name tags
            (((100 + (st.passageIndex % 5) * 200 : ℕ) : ℤ) : ℚ)
            (((100 + (st.passageIndex / 5) * 150 : ℕ) : ℤ) : ℚ) 100 100 "")) ∧
    (∀ (st : TweeState) (name : String) (tags : List String)
        (metaStr : Option String),
      (name = "StoryTitle" ∨ name = "StoryData" ∨
        "stylesheet" ∈ tags ∨ "script" ∈ tags) →
      (tweeHeaderStep st name tags metaStr).passageIndex = st.passageIndex) ∧
    (∀ (st : TweeState) (name : String) (tags : List String) (ms : String)
        (md : JValue) (pos sz : String) (px py pw ph2 : List Char)
        (vx vy vw vh : ℤ),
      name ≠ "StoryTitle" → name ≠ "StoryData" →
      "stylesheet" ∉ tags → "script" ∉ tags →
      jparse ms = some md →
      jget md "position" = some (.str pos) →
      jget md "size" = some (.str sz) →
      jsSplit [','] pos.data = [px, py] →
      jsSplit [','] sz.data = [pw, ph2] →
      jsParseInt (String.mk px) = some vx → vx ≠ 0 →
      jsParseInt (String.mk py) = some vy → vy ≠ 0 →
      jsParseInt (String.mk pw) = some vw → vw ≠ 0 →
      jsParseInt (String.mk ph2) = some vh → vh ≠ 0 →
      (tweeHeaderStep st name tags (some ms)).mode =
        TweeMode.passage name tags (vx : ℚ) (vy : ℚ) (vw : ℚ) (vh : ℚ) "") ∧
    (parseTwee ":: Start\nGo: [[Cave]]\n\n:: Cave\nDark.").map
        (fun s => (s.title, s.startPassage,
          s.passages.map (fun kv => (kv.1, kv.2.content, kv.2.x, kv.2.y))))
      = (some ("Imported Story", "Start",
          [("Start", "Go: [[Cave]]", ((100 : ℤ) : ℚ), ((100 : ℤ) : ℚ)),
           ("Cave", "Dark.", ((300 : ℤ) : ℚ), ((100 : ℤ) : ℚ))]) :
          Option (String × String × List (String × String × ℚ × ℚ))) := by
  refine ⟨?_, ?_, ?_, ?_⟩
  · intro st name tags metaStr h1 h2 h3 h4
    unfold tweeHeaderStep
    rw [if_neg h1, if_neg h2, if_neg h3, if_neg h4]
    refine ⟨by simp [tweeSave_passageIndex], ?_⟩
    intro hmeta
    unfold tweeSeedCoords
    rw [hmeta]
    simp [tweeSave_passageIndex]
  · intro st name tags metaStr h
    unfold tweeHeaderStep
    rcases h with h | h | h | h
    · rw [if_pos h]; exact tweeSave_passageIndex st
    · by_cases h1 : name = "StoryTitle"
      · rw [if_pos h1]; exact tweeSave_passageIndex st
      · rw [if_neg h1, if_pos h]; exact tweeSave_passageIndex st
    · by_cases h1 : name = "StoryTitle"
      · rw [if_pos h1]; exact tweeSave_passageIndex st
      · by_cases h2 : name = "StoryData"
        · rw [if_neg h1, if_pos h2]; exact tweeSave_passageIndex st
        · rw [if_neg h1, if_neg h2, if_pos h]; exact tweeSave_passageIndex st
    · by_cases h1 : name = "StoryTitle"
      · rw [if_pos h1]; exact tweeSave_passageIndex st
      · by_cases h2 : name = "StoryData"
        · rw [if_neg h1, if_pos h2]; exact tweeSave_passageIndex st
        · by_cases h3 : "stylesheet" ∈ tags
          · rw [if_neg h1, if_neg h2, if_pos h3]; exact tweeSave_passageIndex st
          · rw [if_neg h1, if_neg h2, if_neg h3, if_pos h]
            exact tweeSave_passageIndex st
  · intro st name tags ms md pos sz px py pw ph2 vx vy vw vh
      h1 h2 h3 h4 hparse hpos hsz hpsplit hssplit hx hx0 hy hy0 hw hw0 hh hh0
    unfold tweeHeaderStep
    rw [if_neg h1, if_neg h2, if_neg h3, if_neg h4]
    unfold tweeSeedCoords
    simp only [Option.some_bind, hparse, hpos, hsz, hpsplit, hssplit,
      List.getD, List.get?_cons_zero, List.get?_cons_succ, Option.getD_some,
      parseIntOr, hx, hy, hw, hh, if_neg hx0, if_neg hy0, if_neg hw0,
      if_neg hh0]
  · rfl

/-- Claim C7 counterexample: a metadata position whose first component is
the digit zero is numeric, yet the imported passage keeps the grid
default for that coordinate instead of zero, because the source treats a
parsed zero as falsy and falls back. -/
theorem parseTwee_zero_position_counterexample :
    (parseTwee ":: A \x7b\"position\":\"0,7\",\"size\":\"50,60\"\x7d\nhi").bind
        (fun s => alookup s.passages "A")
      = some { name := "A", content := "hi", tags := [], x := 100, y := 7,
               width := 50, height := 60 } ∧
    ((100 : ℚ) ≠ 0) := by
  refine ⟨by decide, by norm_num⟩

/-- Witness for claim C7: a fresh ordinary header with no metadata at the
initial state. -/
theorem parseTwee_grid_spec_witness :
    (("A" : String) ≠ "StoryTitle") ∧
    ((tweeHeaderStep tweeInit "A" [] none).passageIndex
        = tweeInit.passageIndex + 1 ∧
      ((none : Option String).bind (fun ms => jparse ms) = none →
        (tweeHeaderStep tweeInit "A" [] none).mode =
          TweeMode.passage "A" []
            (((100 + (tweeInit.passageIndex % 5) * 200 : ℕ) : ℤ) : ℚ)
            (((100 + (tweeInit.passageIndex / 5) * 150 : ℕ) : ℤ) : ℚ)
            100 100 "")) :=
  ⟨by decide,
   parseTwee_grid_spec.1 tweeInit "A" [] none (by decide) (by decide)
     (by decide) (by decide)⟩

/-- Claim C2 (amended): the format detector dispatches on the extension
hint first and returns the hinted parser's result as is — a failed hinted
parse yields no result with no fallback; content sniffing, in the
documented order, runs only when the extension is none of the five
recognized ones. -/
theorem parseFile_dispatch {α : Type} (pj pt ph : String → Option α)
    (content filename : String) :
    (extOf filename = "json" →
      parseFileWith pj pt ph content filename = pj content) ∧
    (extOf filename = "twee" ∨ extOf filename = "tw" →
      parseFileWith pj pt ph content filename = pt content) ∧
    (extOf filename = "html" ∨ extOf filename = "htm" →
      parseFileWith pj pt ph content filename = ph content) ∧
    (extOf filename ∉ (["json", "twee", "tw", "html", "htm"] : List String) →
      (startsWithBrace content = true →
        parseFileWith pj pt ph content filename = pj content) ∧
      (startsWithBrace content = false →
        jsIncludes content "<tw-storydata" = true →
        parseFileWith pj pt ph content filename = ph content) ∧
      (startsWithBrace content = false →
        jsIncludes content "<tw-storydata" = false →
        jsIncludes content "::" = true →
        parseFileWith pj pt ph content filename = pt content) ∧
      (startsWithBrace content = false →
        jsIncludes content "<tw-storydata" = false →
        jsIncludes content "::" = false →
        parseFileWith pj pt ph content filename = none)) := by
  refine ⟨?_, ?_, ?_, ?_⟩
  · intro h
    unfold parseFileWith
    rw [if_pos h]
  · intro h
    have hj : extOf filename ≠ "json" := by
      rcases h with h | h <;> simp [h]
    unfold parseFileWith
    rw [if_neg hj, if_pos h]
  · intro h
    have hj : extOf filename ≠ "json" := by
      rcases h with h | h <;> simp [h]
    have ht : ¬ (extOf filename = "twee" ∨ extOf filename = "tw") := by
      rcases h with h | h <;> simp [h]
    unfold parseFileWith
    rw [if_neg hj, if_neg ht, if_pos h]
    cases ph content <;> rfl
  · intro h
    simp only [List.mem_cons, List.mem_singleton, not_or] at h
    obtain ⟨h1, h2, h3, h4, h5⟩ := h
    unfold parseFileWith
    rw [if_neg h1, if_neg (by simp [h2, h3]), if_neg (by simp [h4, h5])]
    refine ⟨fun hb => by rw [if_pos hb], fun hb hs => ?_, fun hb hs hc => ?_,
      fun hb hs hc => ?_⟩
    · rw [if_neg (by simp [hb]), if_pos hs]
    · rw [if_neg (by simp [hb]), if_neg (by simp [hs]), if_pos hc]
    · rw [if_neg (by simp [hb]), if_neg (by simp [hs]), if_neg (by simp [hc])]

/-- Claim C2 counterexample: a line-format document saved under a json
extension: the hinted JSON parse fails and the detector returns no
result, although the content contains the line-format marker and the
line-format parser succeeds on it — the claimed fallback to sniffing
after a failed hinted parse does not happen. -/
theorem parseFile_no_fallback_counterexample :
    parseFile ":: Start\nhi" "story.json" = none ∧
    (parseTwee ":: Start\nhi").isSome = true ∧
    jsIncludes ":: Start\nhi" "::" = true := by
  refine ⟨by rfl, by rfl, by rfl⟩

/-- Witness for claim C2 at the concrete detector and a json-extension
file name. -/
theorem parseFile_dispatch_witness :
    extOf "a.json" = "json" ∧
    parseFileWith parseJsonText parseTweeJ parseTwineM "x" "a.json"
      = parseJsonText "x" :=
  ⟨by rfl,
   (parseFile_dispatch parseJsonText parseTweeJ parseTwineM "x" "a.json").1 (by rfl)⟩
